import Mathlib

/-!
Shallow embedding of the treys poker-hand evaluator (`treys/evaluator.py`):
the five/six/seven-card evaluators, the dispatching `evaluate`, rank-class
derivation, the rank percentage, the multi-street hand summary, and the
Omaha (`PLOEvaluator`) variant, together with theorems settling the spec
claims about them.

Encoded cards are Python ints, embedded as `Nat` with the bitwise operators.
Fallible operations (dict misses, the failed assert, the raised exception in
`get_rank_class`) are embedded as `Except EvalError`.

The card codec (`treys/card.py`) and the lookup tables (`treys/lookup.py`)
are external collaborators of the evaluator; definitions taken from them are
marked `Modelled from the spec:` and follow the spec's description of those
collaborators.
-/

/-- Error taxonomy for the fallible operations, following the spec's names:
`UnsupportedHandSize` for the dispatch miss in `evaluate`, `InvalidRank` for
the exception in `get_rank_class`, `InvalidRankClass` for the dict miss in
`class_to_string`, `InvalidBoardLength` for the failed assert in
`hand_summary`. -/
inductive EvalError where
  | UnsupportedHandSize
  | InvalidRank
  | InvalidRankClass
  | InvalidBoardLength
deriving DecidableEq, Repr

/-- Modelled from the spec: the 13 primes that the card codec assigns to the
13 card ranks (deuce through ace), used to build collision-free prime
products (`treys/card.py`, `Card.PRIMES`, not under `src/`). -/
def PRIMES : List Nat := [2, 3, 5, 7, 11, 13, 17, 19, 23, 29, 31, 37, 41]

/-- Modelled from the spec: `Card.prime_product_from_rankbits` from the card
codec (not under `src/`) — the product of the rank-primes corresponding to
the set bits of a combined rank-bitmask. -/
def prime_product_from_rankbits (rankbits : Nat) : Nat :=
  (List.range 13).foldl
    (fun product i => if rankbits.testBit i then product * PRIMES.getD i 1 else product) 1

/-- Modelled from the spec: the rank-prime embedded in an encoded card (the
codec places it in the low byte of the card integer). -/
def card_prime (card_int : Nat) : Nat := card_int &&& 0xFF

/-- Modelled from the spec: `Card.prime_product_from_hand` from the card
codec (not under `src/`) — the product of each card's embedded rank-prime. -/
def prime_product_from_hand (card_ints : List Nat) : Nat :=
  card_ints.foldl (fun product c => product * card_prime c) 1

/-- Modelled from the spec: the lookup tables of `treys/lookup.py` (not under
`src/`), two immutable mappings from a prime product to a rank. They are
embedded as total functions; the spec's table invariant (every achievable
prime product is covered, every stored rank lies in [1, 7462]) is taken as a
hypothesis (`LookupTable.Bounded`) where a claim needs it. -/
structure LookupTable where
  flush_lookup : Nat → Nat
  unsuited_lookup : Nat → Nat

/-- Modelled from the spec: boundary constant of `treys/lookup.py` (ascending
rank cut points; the standard Cactus-Kev boundaries). -/
def MAX_ROYAL_FLUSH : Nat := 1

/-- Modelled from the spec: boundary constant of `treys/lookup.py`. -/
def MAX_STRAIGHT_FLUSH : Nat := 10

/-- Modelled from the spec: boundary constant of `treys/lookup.py`. -/
def MAX_FOUR_OF_A_KIND : Nat := 166

/-- Modelled from the spec: boundary constant of `treys/lookup.py`. -/
def MAX_FULL_HOUSE : Nat := 322

/-- Modelled from the spec: boundary constant of `treys/lookup.py`. -/
def MAX_FLUSH : Nat := 1599

/-- Modelled from the spec: boundary constant of `treys/lookup.py`. -/
def MAX_STRAIGHT : Nat := 1609

/-- Modelled from the spec: boundary constant of `treys/lookup.py`. -/
def MAX_THREE_OF_A_KIND : Nat := 2467

/-- Modelled from the spec: boundary constant of `treys/lookup.py`. -/
def MAX_TWO_PAIR : Nat := 3325

/-- Modelled from the spec: boundary constant of `treys/lookup.py`. -/
def MAX_PAIR : Nat := 6185

/-- Modelled from the spec: the worst rank, 7462 ("high card" boundary). -/
def MAX_HIGH_CARD : Nat := 7462

/-- Modelled from the spec: `LookupTable.MAX_TO_RANK_CLASS` (not under
`src/`), the dict sending each of the ten boundary constants to its class
index, ascending boundaries to ascending indices. The source dict is defined
exactly at the ten boundary keys; other keys (a KeyError in the source) are
given a junk value, never reached by `get_rank_class`. -/
def MAX_TO_RANK_CLASS (boundary : Nat) : Nat :=
  if boundary = MAX_ROYAL_FLUSH then 0
  else if boundary = MAX_STRAIGHT_FLUSH then 1
  else if boundary = MAX_FOUR_OF_A_KIND then 2
  else if boundary = MAX_FULL_HOUSE then 3
  else if boundary = MAX_FLUSH then 4
  else if boundary = MAX_STRAIGHT then 5
  else if boundary = MAX_THREE_OF_A_KIND then 6
  else if boundary = MAX_TWO_PAIR then 7
  else if boundary = MAX_PAIR then 8
  else if boundary = MAX_HIGH_CARD then 9
  else 0

/-- Modelled from the spec: `LookupTable.RANK_CLASS_TO_STRING` (not under
`src/`), the class-index → label dict; a miss (a KeyError in the source) is
the spec's `InvalidRankClass` condition. -/
def RANK_CLASS_TO_STRING (class_int : Nat) : Except EvalError String :=
  if class_int = 0 then .ok "Royal Flush"
  else if class_int = 1 then .ok "Straight Flush"
  else if class_int = 2 then .ok "Four of a Kind"
  else if class_int = 3 then .ok "Full House"
  else if class_int = 4 then .ok "Flush"
  else if class_int = 5 then .ok "Straight"
  else if class_int = 6 then .ok "Three of a Kind"
  else if class_int = 7 then .ok "Two Pair"
  else if class_int = 8 then .ok "Pair"
  else if class_int = 9 then .ok "High Card"
  else .error .InvalidRankClass

/-- The spec's table invariant: every rank stored in either lookup table lies
in [1, 7462]. -/
def LookupTable.Bounded (t : LookupTable) : Prop :=
  (∀ p, 1 ≤ t.flush_lookup p ∧ t.flush_lookup p ≤ MAX_HIGH_CARD) ∧
  (∀ p, 1 ≤ t.unsuited_lookup p ∧ t.unsuited_lookup p ≤ MAX_HIGH_CARD)

/-- Embedding of `Evaluator._five`: if the bitwise AND of the five cards and
the suit mask 0xF000 is nonzero, look up the prime product of the OR-combined
rank bits in `flush_lookup`; otherwise look up the prime product of the
cards' embedded primes in `unsuited_lookup`. Callers always pass at least
five cards; shorter lists (an IndexError in the source) get a junk value. -/
def _five (t : LookupTable) (cards : List Nat) : Nat :=
  match cards with
  | c0 :: c1 :: c2 :: c3 :: c4 :: rest =>
    if c0 &&& c1 &&& c2 &&& c3 &&& c4 &&& 0xF000 ≠ 0 then
      t.flush_lookup (prime_product_from_rankbits ((c0 ||| c1 ||| c2 ||| c3 ||| c4) >>> 16))
    else
      t.unsuited_lookup (prime_product_from_hand (c0 :: c1 :: c2 :: c3 :: c4 :: rest))
  | _ => 0

/-- Embedding of `Evaluator._six`: fold `_five` over all 5-card subsets,
keeping the minimum, seeded with `MAX_HIGH_CARD`. `itertools.combinations`
yields exactly the length-5 sublists; the enumeration order differs from
`List.sublistsLen`'s, which does not affect the computed minimum. -/
def _six (t : LookupTable) (cards : List Nat) : Nat :=
  (List.sublistsLen 5 cards).foldl
    (fun minimum combo =>
      let score := _five t combo
      if score < minimum then score else minimum)
    MAX_HIGH_CARD

/-- Embedding of `Evaluator._seven` (the source duplicates the body of
`_six`). -/
def _seven (t : LookupTable) (cards : List Nat) : Nat :=
  (List.sublistsLen 5 cards).foldl
    (fun minimum combo =>
      let score := _five t combo
      if score < minimum then score else minimum)
    MAX_HIGH_CARD

/-- Embedding of `Evaluator.evaluate`: concatenate hand and board and
dispatch on the total length through `hand_size_map`, whose keys are 5, 6
and 7; any other length is a dict miss (KeyError), the spec's
`UnsupportedHandSize`. -/
def evaluate (t : LookupTable) (hand board : List Nat) : Except EvalError Nat :=
  let all_cards := hand ++ board
  if all_cards.length = 5 then .ok (_five t all_cards)
  else if all_cards.length = 6 then .ok (_six t all_cards)
  else if all_cards.length = 7 then .ok (_seven t all_cards)
  else .error .UnsupportedHandSize

/-- Embedding of `Evaluator.get_rank_class`: the source's `if`/`elif` chain
over the boundary constants, raising (the spec's `InvalidRank`) only in the
final `else`. The argument is `Int` because the source accepts any Python
int. -/
def get_rank_class (hr : Int) : Except EvalError Nat :=
  if 0 ≤ hr ∧ hr ≤ (MAX_ROYAL_FLUSH : Int) then .ok (MAX_TO_RANK_CLASS MAX_ROYAL_FLUSH)
  else if hr ≤ (MAX_STRAIGHT_FLUSH : Int) then .ok (MAX_TO_RANK_CLASS MAX_STRAIGHT_FLUSH)
  else if hr ≤ (MAX_FOUR_OF_A_KIND : Int) then .ok (MAX_TO_RANK_CLASS MAX_FOUR_OF_A_KIND)
  else if hr ≤ (MAX_FULL_HOUSE : Int) then .ok (MAX_TO_RANK_CLASS MAX_FULL_HOUSE)
  else if hr ≤ (MAX_FLUSH : Int) then .ok (MAX_TO_RANK_CLASS MAX_FLUSH)
  else if hr ≤ (MAX_STRAIGHT : Int) then .ok (MAX_TO_RANK_CLASS MAX_STRAIGHT)
  else if hr ≤ (MAX_THREE_OF_A_KIND : Int) then .ok (MAX_TO_RANK_CLASS MAX_THREE_OF_A_KIND)
  else if hr ≤ (MAX_TWO_PAIR : Int) then .ok (MAX_TO_RANK_CLASS MAX_TWO_PAIR)
  else if hr ≤ (MAX_PAIR : Int) then .ok (MAX_TO_RANK_CLASS MAX_PAIR)
  else if hr ≤ (MAX_HIGH_CARD : Int) then .ok (MAX_TO_RANK_CLASS MAX_HIGH_CARD)
  else .error .InvalidRank

/-- Embedding of `Evaluator.class_to_string`: a direct dict lookup. -/
def class_to_string (class_int : Nat) : Except EvalError String :=
  RANK_CLASS_TO_STRING class_int

/-- Embedding of `Evaluator.get_five_card_rank_percentage`:
`float(hand_rank) / float(MAX_HIGH_CARD)`. IEEE doubles are embedded as
exact rationals. -/
def get_five_card_rank_percentage (hand_rank : Int) : ℚ :=
  (hand_rank : ℚ) / (MAX_HIGH_CARD : ℚ)

/-- Embedding of the per-player body of `hand_summary`'s street loop:
evaluate the player's hand against the board so far, derive the rank class,
its label and the percentage (computed and discarded by the source, but able
to raise), then update the running best rank and leader list: append the
player on a tie, reset to just the player on a strict improvement. -/
def hand_summary_step (t : LookupTable) (board_so_far : List Nat)
    (acc : Nat × List Nat) (ph : Nat × List Nat) : Except EvalError (Nat × List Nat) := do
  let rank ← evaluate t ph.2 board_so_far
  let rank_class ← get_rank_class (rank : Int)
  let _class_string ← class_to_string rank_class
  let _percentage : ℚ := 1 - get_five_card_rank_percentage (rank : Int)
  if rank = acc.1 then pure (rank, acc.2 ++ [ph.1])
  else if rank < acc.1 then pure (rank, [ph.1])
  else pure acc

/-- One street of `hand_summary`: fold `hand_summary_step` over the players,
seeded with best rank 7463 (one worse than the worst hand) and no leaders.
Python dicts iterate in insertion order, embedded as an association list. -/
def hand_summary_street (t : LookupTable) (board_so_far : List Nat)
    (hands : List (Nat × List Nat)) : Except EvalError (Nat × List Nat) :=
  hands.foldlM (hand_summary_step t board_so_far) (7463, [])

/-- Embedding of `Evaluator.hand_summary`: assert the board has exactly
`BOARD_LENGTH = 5` cards (the spec's `InvalidBoardLength`), then run the
three streets FLOP/TURN/RIVER on the first 3, 4, and 5 board cards; only the
last street's leader list is returned. -/
def hand_summary (t : LookupTable) (board : List Nat)
    (hands : List (Nat × List Nat)) : Except EvalError (List Nat) :=
  if board.length = 5 then do
    let _flop ← hand_summary_street t (board.take 3) hands
    let _turn ← hand_summary_street t (board.take 4) hands
    let river ← hand_summary_street t (board.take 5) hands
    pure river.2
  else .error .InvalidBoardLength

/-- Embedding of `PLOEvaluator.evaluate`: fold `_five` over every pair of a
2-card combination of the hole cards and a 3-card combination of the board
(board cards first, as in the source), keeping the minimum, seeded with
`MAX_HIGH_CARD`. -/
def PLOEvaluator.evaluate (t : LookupTable) (hand board : List Nat) : Nat :=
  (List.sublistsLen 2 hand).foldl
    (fun minimum hand_combo =>
      (List.sublistsLen 3 board).foldl
        (fun minimum board_combo =>
          let score := _five t (board_combo ++ hand_combo)
          if score < minimum then score else minimum)
        minimum)
    MAX_HIGH_CARD

/-! Claim-side definitions, phrased from the spec's words, to be compared
with the embeddings above. -/

/-- Claim-side reading of the five-card scorer (spec §4.1): test the bitwise
AND of the five cards' suit fields, OR the five cards' rank-bit fields, and
take the prime product of the whole hand in the unsuited case. -/
def five_spec (t : LookupTable) (cards : List Nat) : Nat :=
  match cards with
  | [c0, c1, c2, c3, c4] =>
    if (c0 &&& 0xF000) &&& (c1 &&& 0xF000) &&& (c2 &&& 0xF000) &&& (c3 &&& 0xF000)
        &&& (c4 &&& 0xF000) ≠ 0 then
      t.flush_lookup (prime_product_from_rankbits
        ((c0 >>> 16) ||| (c1 >>> 16) ||| (c2 >>> 16) ||| (c3 >>> 16) ||| (c4 >>> 16)))
    else
      t.unsuited_lookup (prime_product_from_hand [c0, c1, c2, c3, c4])
  | _ => 0

/-- The minimum of a list of ranks: `none` on the empty list. -/
def list_min : List Nat → Option Nat
  | [] => none
  | x :: xs => some (xs.foldr min x)

/-- Claim-side reading of the river street of `hand_summary` (spec §4.5):
over the full 5-card board, track the best rank and its leader list, reset
on strict improvement, append on a tie, and keep only the leader list. -/
def river_leaders (t : LookupTable) (board : List Nat)
    (hands : List (Nat × List Nat)) : List Nat :=
  (hands.foldl
    (fun acc ph =>
      let rank := _seven t (ph.2 ++ board)
      if rank = acc.1 then (rank, acc.2 ++ [ph.1])
      else if rank < acc.1 then (rank, [ph.1])
      else acc)
    (7463, [])).2

/-- Lookup table whose entries are all 1, used to instantiate theorems at
concrete inputs. -/
def onesTable : LookupTable := ⟨fun _ => 1, fun _ => 1⟩

/-! Helper lemmas about bitwise operations, minimum folds and list shapes. -/

theorem land_mask_five (a b c d e m : Nat) :
    (a &&& m) &&& (b &&& m) &&& (c &&& m) &&& (d &&& m) &&& (e &&& m)
      = a &&& b &&& c &&& d &&& e &&& m := by
  apply Nat.eq_of_testBit_eq
  intro i
  simp only [Nat.testBit_land]
  generalize a.testBit i = x1
  generalize b.testBit i = x2
  generalize c.testBit i = x3
  generalize d.testBit i = x4
  generalize e.testBit i = x5
  generalize m.testBit i = x6
  revert x1 x2 x3 x4 x5 x6
  decide

theorem shiftRight_lor_five (a b c d e : Nat) :
    (a >>> 16) ||| (b >>> 16) ||| (c >>> 16) ||| (d >>> 16) ||| (e >>> 16)
      = (a ||| b ||| c ||| d ||| e) >>> 16 := by
  apply Nat.eq_of_testBit_eq
  intro i
  simp [Nat.testBit_lor, Nat.testBit_shiftRight]

theorem land_left_comm_nat (a b x : Nat) : a &&& (b &&& x) = b &&& (a &&& x) := by
  apply Nat.eq_of_testBit_eq
  intro i
  simp only [Nat.testBit_land]
  generalize a.testBit i = p
  generalize b.testBit i = q
  generalize x.testBit i = r
  revert p q r
  decide

theorem lor_left_comm_nat (a b x : Nat) : a ||| (b ||| x) = b ||| (a ||| x) := by
  apply Nat.eq_of_testBit_eq
  intro i
  simp only [Nat.testBit_lor]
  generalize a.testBit i = p
  generalize b.testBit i = q
  generalize x.testBit i = r
  revert p q r
  decide

theorem land_five_right_assoc (c0 c1 c2 c3 c4 m : Nat) :
    c0 &&& c1 &&& c2 &&& c3 &&& c4 &&& m
      = c0 &&& (c1 &&& (c2 &&& (c3 &&& (c4 &&& m)))) := by
  apply Nat.eq_of_testBit_eq
  intro i
  simp only [Nat.testBit_land]
  generalize c0.testBit i = x1
  generalize c1.testBit i = x2
  generalize c2.testBit i = x3
  generalize c3.testBit i = x4
  generalize c4.testBit i = x5
  generalize m.testBit i = x6
  revert x1 x2 x3 x4 x5 x6
  decide

theorem lor_five_right_assoc (c0 c1 c2 c3 c4 : Nat) :
    c0 ||| c1 ||| c2 ||| c3 ||| c4
      = c0 ||| (c1 ||| (c2 ||| (c3 ||| (c4 ||| 0)))) := by
  rw [Nat.or_zero]
  apply Nat.eq_of_testBit_eq
  intro i
  simp only [Nat.testBit_lor]
  generalize c0.testBit i = x1
  generalize c1.testBit i = x2
  generalize c2.testBit i = x3
  generalize c3.testBit i = x4
  generalize c4.testBit i = x5
  revert x1 x2 x3 x4 x5
  decide

theorem list_len5 (l : List Nat) (h : l.length = 5) :
    ∃ c0 c1 c2 c3 c4, l = [c0, c1, c2, c3, c4] := by
  rcases l with _ | ⟨c0, _ | ⟨c1, _ | ⟨c2, _ | ⟨c3, _ | ⟨c4, _ | ⟨c5, rest⟩⟩⟩⟩⟩⟩
  · simp at h
  · simp at h
  · simp at h
  · simp at h
  · simp at h
  · exact ⟨c0, c1, c2, c3, c4, rfl⟩
  · simp at h

theorem foldr_eq_of_perm {α β : Type} (f : α → β → β)
    (hf : ∀ a b x, f a (f b x) = f b (f a x)) {l1 l2 : List α} (h : l1.Perm l2) (b : β) :
    l1.foldr f b = l2.foldr f b := by
  induction h with
  | nil => rfl
  | cons x _ ih => simp only [List.foldr_cons, ih]
  | swap x y l => simp only [List.foldr_cons]; exact hf y x _
  | trans _ _ ih1 ih2 => rw [ih1, ih2]

theorem if_lt_eq_min (s a : Nat) : (if s < a then s else a) = min s a := by
  rw [Nat.min_def]
  split_ifs <;> omega

theorem foldr_min_swap (l : List Nat) :
    ∀ x a : Nat, l.foldr min (min x a) = min x (l.foldr min a) := by
  induction l with
  | nil => intro x a; rfl
  | cons y ys ih =>
    intro x a
    simp only [List.foldr_cons]
    rw [ih, min_left_comm]

theorem foldl_min_eq_foldr {α : Type} (f : α → Nat) (l : List α) :
    ∀ a : Nat,
      List.foldl (fun minimum x => let score := f x; if score < minimum then score else minimum)
          a l
        = (l.map f).foldr min a := by
  induction l with
  | nil => intro a; rfl
  | cons x xs ih =>
    intro a
    simp only [List.foldl_cons, List.map_cons, List.foldr_cons]
    rw [ih]
    show (xs.map f).foldr min (if f x < a then f x else a) = min (f x) ((xs.map f).foldr min a)
    rw [if_lt_eq_min, foldr_min_swap]

theorem foldr_min_le_init (l : List Nat) (a : Nat) : l.foldr min a ≤ a := by
  induction l with
  | nil => exact Nat.le_refl a
  | cons x xs ih =>
    simp only [List.foldr_cons]
    exact le_trans (min_le_right _ _) ih

theorem foldr_min_le_mem (l : List Nat) (a x : Nat) (hx : x ∈ l) : l.foldr min a ≤ x := by
  induction hx with
  | head ys =>
    simp only [List.foldr_cons]
    exact min_le_left _ _
  | tail b hmem ih =>
    simp only [List.foldr_cons]
    exact le_trans (min_le_right _ _) ih

theorem foldr_min_mem_or (l : List Nat) (a : Nat) : l.foldr min a = a ∨ l.foldr min a ∈ l := by
  induction l with
  | nil => exact Or.inl rfl
  | cons x xs ih =>
    simp only [List.foldr_cons]
    rcases le_total x (xs.foldr min a) with h | h
    · right
      rw [min_eq_left h]
      exact List.mem_cons_self x xs
    · rcases ih with h2 | h2
      · left
        rw [min_eq_right h]
        exact h2
      · right
        rw [min_eq_right h]
        exact List.mem_cons_of_mem _ h2

theorem list_min_le_mem (l : List Nat) (m x : Nat) (hm : list_min l = some m) (hx : x ∈ l) :
    m ≤ x := by
  cases l with
  | nil => simp [list_min] at hm
  | cons y ys =>
    simp only [list_min, Option.some.injEq] at hm
    subst hm
    rcases List.mem_cons.mp hx with h | h
    · rw [h]
      exact foldr_min_le_init ys y
    · exact foldr_min_le_mem ys y x h

theorem list_min_mem (l : List Nat) (m : Nat) (hm : list_min l = some m) : m ∈ l := by
  cases l with
  | nil => simp [list_min] at hm
  | cons y ys =>
    simp only [list_min, Option.some.injEq] at hm
    subst hm
    rcases foldr_min_mem_or ys y with h | h
    · rw [h]
      exact List.mem_cons_self y ys
    · exact List.mem_cons_of_mem _ h

theorem foldr_min_eq_list_min (l : List Nat) (a m : Nat)
    (hle : ∀ x ∈ l, x ≤ a) (hm : list_min l = some m) : l.foldr min a = m := by
  have hmmem := list_min_mem l m hm
  rcases foldr_min_mem_or l a with h | h
  · have h1 : l.foldr min a ≤ m := foldr_min_le_mem l a m hmmem
    have h2 : m ≤ a := hle m hmmem
    omega
  · have h1 : m ≤ l.foldr min a := list_min_le_mem l m _ hm h
    have h2 : l.foldr min a ≤ m := foldr_min_le_mem l a m hmmem
    omega

theorem onesTable_bounded : onesTable.Bounded := by
  refine ⟨fun p => ⟨?_, ?_⟩, fun p => ⟨?_, ?_⟩⟩ <;> simp [onesTable, MAX_HIGH_CARD]

/-- Characterization of `_five` on five-card hands through order-independent
folds: the suit test is an AND-fold, the rank-bit combination an OR-fold,
and the unsuited key a product over the per-card primes. -/
theorem five_eq_folds (t : LookupTable) (cards : List Nat) (h5 : cards.length = 5) :
    _five t cards =
      if cards.foldr (fun c acc => c &&& acc) 0xF000 ≠ 0 then
        t.flush_lookup (prime_product_from_rankbits
          ((cards.foldr (fun c acc => c ||| acc) 0) >>> 16))
      else
        t.unsuited_lookup ((cards.map card_prime).prod) := by
  obtain ⟨c0, c1, c2, c3, c4, rfl⟩ := list_len5 cards h5
  simp only [_five, List.foldr_cons, List.foldr_nil, List.map_cons, List.map_nil,
    List.prod_cons, List.prod_nil, prime_product_from_hand, List.foldl_cons, List.foldl_nil]
  rw [land_five_right_assoc, lor_five_right_assoc]
  congr 1
  ring_nf

/-- C1: for every sequence of exactly 5 encoded cards, the five-card scorer
returns `flush_lookup` applied to the prime product of the OR of the cards'
rank-bit fields when the bitwise AND of all 5 cards' suit fields is nonzero,
and otherwise returns `unsuited_lookup` applied to the prime product of the
5 cards' embedded primes (`five_spec` phrases this reading of spec §4.1). -/
theorem five_matches_spec (t : LookupTable) (cards : List Nat) (h5 : cards.length = 5) :
    _five t cards = five_spec t cards := by
  obtain ⟨c0, c1, c2, c3, c4, rfl⟩ := list_len5 cards h5
  simp only [_five, five_spec]
  rw [land_mask_five, shiftRight_lor_five]

/-- Witness for C1 at a concrete five-card input. -/
theorem five_matches_spec_witness :
    _five onesTable [1, 2, 3, 4, 5] = five_spec onesTable [1, 2, 3, 4, 5] :=
  five_matches_spec onesTable [1, 2, 3, 4, 5] rfl

/-- C10: the five-card scorer is permutation-invariant — on any permutation
of a sequence of exactly 5 encoded cards it returns the same rank, because
the suit AND, rank-bit OR and prime product are order-independent. -/
theorem five_perm_invariant (t : LookupTable) (cards cards' : List Nat)
    (h5 : cards.length = 5) (hp : cards'.Perm cards) :
    _five t cards' = _five t cards := by
  have h5' : cards'.length = 5 := by rw [hp.length_eq, h5]
  rw [five_eq_folds t cards h5, five_eq_folds t cards' h5']
  have hand : cards'.foldr (fun c acc => c &&& acc) 0xF000
      = cards.foldr (fun c acc => c &&& acc) 0xF000 :=
    foldr_eq_of_perm _ (fun a b x => land_left_comm_nat a b x) hp _
  have hor : cards'.foldr (fun c acc => c ||| acc) 0
      = cards.foldr (fun c acc => c ||| acc) 0 :=
    foldr_eq_of_perm _ (fun a b x => lor_left_comm_nat a b x) hp _
  have hprod : (cards'.map card_prime).prod = (cards.map card_prime).prod :=
    (hp.map card_prime).prod_eq
  rw [hand, hor, hprod]

/-- Witness for C10 at a concrete permutation of a concrete hand. -/
theorem five_perm_invariant_witness :
    _five onesTable [2, 1, 3, 4, 5] = _five onesTable [1, 2, 3, 4, 5] :=
  five_perm_invariant onesTable [1, 2, 3, 4, 5] [2, 1, 3, 4, 5] rfl (by decide)

theorem five_le_max (t : LookupTable) (hb : t.Bounded) (cards : List Nat)
    (h5 : cards.length = 5) : _five t cards ≤ MAX_HIGH_CARD := by
  obtain ⟨c0, c1, c2, c3, c4, rfl⟩ := list_len5 cards h5
  simp only [_five]
  split
  · exact (hb.1 _).2
  · exact (hb.2 _).2

theorem six_eq_list_min (t : LookupTable) (hb : t.Bounded) (cards : List Nat) (m : Nat)
    (hm : list_min ((List.sublistsLen 5 cards).map (_five t)) = some m) :
    _six t cards = m := by
  simp only [_six]
  rw [foldl_min_eq_foldr]
  apply foldr_min_eq_list_min _ _ _ _ hm
  intro x hx
  obtain ⟨s, hs, rfl⟩ := List.mem_map.mp hx
  exact five_le_max t hb s (List.mem_sublistsLen.mp hs).2

theorem seven_eq_six (t : LookupTable) (cards : List Nat) : _seven t cards = _six t cards := rfl

/-- C2: for every hand and board whose concatenation has exactly 6 or exactly
7 encoded cards, assuming every table lookup yields a rank in [1, 7462],
`evaluate` equals the minimum over all C(n,5) five-card subsets of the
concatenation of the five-card scorer applied to that subset. -/
theorem evaluate_eq_min_subsets (t : LookupTable) (hand board : List Nat) (m : Nat)
    (hb : t.Bounded)
    (hlen : (hand ++ board).length = 6 ∨ (hand ++ board).length = 7)
    (hm : list_min ((List.sublistsLen 5 (hand ++ board)).map (_five t)) = some m) :
    evaluate t hand board = Except.ok m := by
  rcases hlen with h | h
  · have h5 : ¬((hand ++ board).length = 5) := by omega
    simp only [evaluate]
    rw [if_neg h5, if_pos h]
    exact congrArg Except.ok (six_eq_list_min t hb (hand ++ board) m hm)
  · have h5 : ¬((hand ++ board).length = 5) := by omega
    have h6 : ¬((hand ++ board).length = 6) := by omega
    simp only [evaluate]
    rw [if_neg h5, if_neg h6, if_pos h]
    rw [seven_eq_six]
    exact congrArg Except.ok (six_eq_list_min t hb (hand ++ board) m hm)

/-- Witness for C2 at a concrete 6-card input. -/
theorem evaluate_eq_min_subsets_witness :
    evaluate onesTable [10, 20, 30, 40] [50, 60] = Except.ok 1 :=
  evaluate_eq_min_subsets onesTable [10, 20, 30, 40] [50, 60] 1 onesTable_bounded
    (Or.inl rfl) rfl

/-- C7: for every hand and board whose concatenated length is not 5, 6 or 7,
`evaluate` fails fast with the explicit `UnsupportedHandSize` error rather
than returning a rank. -/
theorem evaluate_bad_length (t : LookupTable) (hand board : List Nat)
    (h : ¬((hand ++ board).length = 5 ∨ (hand ++ board).length = 6 ∨
      (hand ++ board).length = 7)) :
    evaluate t hand board = Except.error EvalError.UnsupportedHandSize := by
  push_neg at h
  obtain ⟨h5, h6, h7⟩ := h
  simp only [evaluate]
  rw [if_neg h5, if_neg h6, if_neg h7]

/-- Witness for C7 at a concrete 3-card input. -/
theorem evaluate_bad_length_witness :
    evaluate onesTable [1, 2] [3] = Except.error EvalError.UnsupportedHandSize :=
  evaluate_bad_length onesTable [1, 2] [3] (by decide)

theorem foldl_flatMap {α β γ : Type} (l : List α) (f : α → List β) (g : γ → β → γ)
    (init : γ) :
    (l.flatMap f).foldl g init = l.foldl (fun acc x => (f x).foldl g acc) init := by
  induction l generalizing init with
  | nil => rfl
  | cons x xs ih =>
    simp only [List.flatMap_cons, List.foldl_append, List.foldl_cons]
    rw [ih]

/-- The nested combination loops of `PLOEvaluator.evaluate` are one fold over
the flattened list of (3-of-board ++ 2-of-hand) five-card sets. -/
theorem plo_eq_foldl_pairs (t : LookupTable) (hand board : List Nat) :
    PLOEvaluator.evaluate t hand board
      = ((List.sublistsLen 2 hand).flatMap
            (fun hand_combo => (List.sublistsLen 3 board).map
              (fun board_combo => board_combo ++ hand_combo))).foldl
          (fun minimum cs => let score := _five t cs; if score < minimum then score else minimum)
          MAX_HIGH_CARD := by
  rw [foldl_flatMap]
  simp only [List.foldl_map]
  rfl

/-- C3: for every Omaha hand of exactly 4 hole cards and board of 5 cards,
assuming every table lookup yields a rank in [1, 7462], the Omaha
evaluator's `evaluate` equals the minimum of the five-card scorer over all
2-card combinations of the hand paired with all 3-card combinations of the
board; every scored five-card set is a 3-card board combination followed by
a 2-card hand combination, so sets with 3 or more hole cards never occur. -/
theorem plo_evaluate_eq_min (t : LookupTable) (hand board : List Nat) (m : Nat)
    (hb : t.Bounded) (_hh : hand.length = 4) (_hbl : board.length = 5)
    (hm : list_min ((List.sublistsLen 2 hand).flatMap
        (fun hand_combo => (List.sublistsLen 3 board).map
          (fun board_combo => _five t (board_combo ++ hand_combo)))) = some m) :
    PLOEvaluator.evaluate t hand board = m := by
  rw [plo_eq_foldl_pairs, foldl_min_eq_foldr]
  apply foldr_min_eq_list_min
  · intro x hx
    rw [List.map_flatMap] at hx
    obtain ⟨hc, hhc, hx2⟩ := List.mem_flatMap.mp hx
    rw [List.map_map] at hx2
    obtain ⟨bc, hbc, rfl⟩ := List.mem_map.mp hx2
    have hlbc : bc.length = 3 := (List.mem_sublistsLen.mp hbc).2
    have hlhc : hc.length = 2 := (List.mem_sublistsLen.mp hhc).2
    have hl5 : (bc ++ hc).length = 5 := by simp [hlbc, hlhc]
    exact five_le_max t hb _ hl5
  · rw [List.map_flatMap]
    simp only [List.map_map, Function.comp]
    exact hm

set_option maxRecDepth 8192 in
/-- Witness for C3 at a concrete 4-card hand and 5-card board. -/
theorem plo_evaluate_eq_min_witness :
    PLOEvaluator.evaluate onesTable [1, 2, 3, 4] [5, 6, 7, 8, 9] = 1 :=
  plo_evaluate_eq_min onesTable [1, 2, 3, 4] [5, 6, 7, 8, 9] 1 onesTable_bounded
    rfl rfl (by decide)

theorem get_rank_class_ok_le (hr : Int) (hle : hr ≤ 7462) :
    ∃ c, get_rank_class hr = Except.ok c ∧ c ≤ 9 := by
  unfold get_rank_class
  norm_num [MAX_ROYAL_FLUSH, MAX_STRAIGHT_FLUSH, MAX_FOUR_OF_A_KIND, MAX_FULL_HOUSE,
    MAX_FLUSH, MAX_STRAIGHT, MAX_THREE_OF_A_KIND, MAX_TWO_PAIR, MAX_PAIR, MAX_HIGH_CARD,
    MAX_TO_RANK_CLASS]
  split_ifs <;> first | exact ⟨_, rfl, by norm_num⟩ | omega

theorem get_rank_class_error_eq (hr : Int) (e : EvalError)
    (h : get_rank_class hr = Except.error e) : e = EvalError.InvalidRank := by
  rcases le_or_lt hr 7462 with hle | hgt
  · obtain ⟨c, hc, _⟩ := get_rank_class_ok_le hr hle
    rw [hc] at h
    exact Except.noConfusion h
  · unfold get_rank_class at h
    have n1 : ¬(0 ≤ hr ∧ hr ≤ (MAX_ROYAL_FLUSH : Int)) := by
      simp only [MAX_ROYAL_FLUSH]
      omega
    have n2 : ¬(hr ≤ (MAX_STRAIGHT_FLUSH : Int)) := by
      simp only [MAX_STRAIGHT_FLUSH]
      omega
    have n3 : ¬(hr ≤ (MAX_FOUR_OF_A_KIND : Int)) := by
      simp only [MAX_FOUR_OF_A_KIND]
      omega
    have n4 : ¬(hr ≤ (MAX_FULL_HOUSE : Int)) := by
      simp only [MAX_FULL_HOUSE]
      omega
    have n5 : ¬(hr ≤ (MAX_FLUSH : Int)) := by
      simp only [MAX_FLUSH]
      omega
    have n6 : ¬(hr ≤ (MAX_STRAIGHT : Int)) := by
      simp only [MAX_STRAIGHT]
      omega
    have n7 : ¬(hr ≤ (MAX_THREE_OF_A_KIND : Int)) := by
      simp only [MAX_THREE_OF_A_KIND]
      omega
    have n8 : ¬(hr ≤ (MAX_TWO_PAIR : Int)) := by
      simp only [MAX_TWO_PAIR]
      omega
    have n9 : ¬(hr ≤ (MAX_PAIR : Int)) := by
      simp only [MAX_PAIR]
      omega
    have n10 : ¬(hr ≤ (MAX_HIGH_CARD : Int)) := by
      simp only [MAX_HIGH_CARD]
      omega
    rw [if_neg n1, if_neg n2, if_neg n3, if_neg n4, if_neg n5, if_neg n6, if_neg n7,
      if_neg n8, if_neg n9, if_neg n10] at h
    injection h with h2
    exact h2.symm

theorem class_to_string_error_eq (c : Nat) (e : EvalError)
    (h : class_to_string c = Except.error e) : e = EvalError.InvalidRankClass := by
  unfold class_to_string RANK_CLASS_TO_STRING at h
  split_ifs at h
  injection h with h2
  exact h2.symm

theorem evaluate_error_eq (t : LookupTable) (hand board : List Nat) (e : EvalError)
    (h : evaluate t hand board = Except.error e) : e = EvalError.UnsupportedHandSize := by
  simp only [evaluate] at h
  split_ifs at h
  injection h with h2
  exact h2.symm

theorem class_to_string_ok (c : Nat) (hc : c ≤ 9) : ∃ s, class_to_string c = Except.ok s := by
  unfold class_to_string RANK_CLASS_TO_STRING
  interval_cases c <;> exact ⟨_, rfl⟩

/-- Closed form of the class index computed by `get_rank_class` on ranks it
accepts: the piecewise boundary chain with the numeric values of the
lookup-table constants and of `MAX_TO_RANK_CLASS`. -/
def rank_class_idx (hr : Int) : Nat :=
  if 0 ≤ hr ∧ hr ≤ 1 then 0
  else if hr ≤ 10 then 1
  else if hr ≤ 166 then 2
  else if hr ≤ 322 then 3
  else if hr ≤ 1599 then 4
  else if hr ≤ 1609 then 5
  else if hr ≤ 2467 then 6
  else if hr ≤ 3325 then 7
  else if hr ≤ 6185 then 8
  else 9

set_option maxHeartbeats 1600000 in
theorem get_rank_class_eq (hr : Int) :
    get_rank_class hr =
      if hr ≤ 7462 then Except.ok (rank_class_idx hr)
      else Except.error EvalError.InvalidRank := by
  unfold get_rank_class rank_class_idx
  norm_num [MAX_ROYAL_FLUSH, MAX_STRAIGHT_FLUSH, MAX_FOUR_OF_A_KIND, MAX_FULL_HOUSE,
    MAX_FLUSH, MAX_STRAIGHT, MAX_THREE_OF_A_KIND, MAX_TWO_PAIR, MAX_PAIR, MAX_HIGH_CARD,
    MAX_TO_RANK_CLASS]
  split_ifs <;> first | rfl | omega

/-- Counterexample to C4 as stated: rank 0 lies outside [1, 7462], yet
`get_rank_class 0` succeeds — the source's first branch accepts every
`0 <= hr <= MAX_ROYAL_FLUSH`, so no error is raised for rank 0 (and negative
ranks fall into the second branch), refuting "fails iff outside [1, 7462]". -/
theorem get_rank_class_zero_no_error :
    ¬(1 ≤ (0 : Int) ∧ (0 : Int) ≤ 7462) ∧ get_rank_class 0 = Except.ok 0 := by
  constructor
  · decide
  · rw [get_rank_class_eq]
    norm_num [rank_class_idx]

/-- C4 amended: `get_rank_class` fails with `InvalidRank` if and only if the
rank exceeds 7462 (rank 0 and negative ranks also return a class); in
particular every rank in [1, 7462] returns a rank class without error. -/
theorem get_rank_class_fails_iff (hr : Int) :
    (get_rank_class hr = Except.error EvalError.InvalidRank ↔ 7462 < hr) ∧
    (1 ≤ hr → hr ≤ 7462 → ∃ c, get_rank_class hr = Except.ok c) := by
  constructor
  · constructor
    · intro h
      by_contra hgt
      push_neg at hgt
      rw [get_rank_class_eq, if_pos hgt] at h
      exact Except.noConfusion h
    · intro h
      rw [get_rank_class_eq, if_neg (by omega)]
  · intro _ h2
    rw [get_rank_class_eq, if_pos h2]
    exact ⟨_, rfl⟩

/-- Witness for the amended C4: rank 7463 errors, rank 5 succeeds. -/
theorem get_rank_class_fails_iff_witness :
    get_rank_class 7463 = Except.error EvalError.InvalidRank ∧
    (∃ c, get_rank_class 5 = Except.ok c) :=
  ⟨(get_rank_class_fails_iff 7463).1.mpr (by norm_num),
   (get_rank_class_fails_iff 5).2 (by norm_num) (by norm_num)⟩

/-- Counterexample to C5 as stated: `rank_percentage 1` is 1/7462, which is
not 0.0. -/
theorem rank_percentage_one_nonzero : get_five_card_rank_percentage 1 ≠ 0 := by
  norm_num [get_five_card_rank_percentage, MAX_HIGH_CARD]

/-- C5 amended: `rank_percentage` computes rank / 7462 for every rank;
`rank_percentage 1` equals 1/7462 (nonzero, not 0.0), and
`rank_percentage 7462` equals 1.0. -/
theorem rank_percentage_div :
    (∀ r : Int, get_five_card_rank_percentage r = (r : ℚ) / 7462) ∧
    get_five_card_rank_percentage 1 = 1 / 7462 ∧
    get_five_card_rank_percentage 7462 = 1 := by
  refine ⟨fun r => ?_, ?_, ?_⟩ <;>
    norm_num [get_five_card_rank_percentage, MAX_HIGH_CARD]

set_option maxHeartbeats 1600000 in
/-- Interval characterization of `rank_class_idx` on positive ranks: within
each band between consecutive boundary constants the class index is the
band's index. -/
theorem rank_class_idx_spec (r : Int) (h1 : 1 ≤ r) :
    (r ≤ 1 → rank_class_idx r = 0) ∧
    (1 < r → r ≤ 10 → rank_class_idx r = 1) ∧
    (10 < r → r ≤ 166 → rank_class_idx r = 2) ∧
    (166 < r → r ≤ 322 → rank_class_idx r = 3) ∧
    (322 < r → r ≤ 1599 → rank_class_idx r = 4) ∧
    (1599 < r → r ≤ 1609 → rank_class_idx r = 5) ∧
    (1609 < r → r ≤ 2467 → rank_class_idx r = 6) ∧
    (2467 < r → r ≤ 3325 → rank_class_idx r = 7) ∧
    (3325 < r → r ≤ 6185 → rank_class_idx r = 8) ∧
    (6185 < r → rank_class_idx r = 9) := by
  unfold rank_class_idx
  split_ifs <;> omega

/-- C8: `get_rank_class` is a pure function of its rank argument, and for
ranks r₁ ≤ r₂ in [1, 7462] the returned class indices are monotonically
non-decreasing (the boundary constants ascend and map to ascending class
indices). -/
theorem get_rank_class_monotone :
    (∀ r₁ r₂ : Int, r₁ = r₂ → get_rank_class r₁ = get_rank_class r₂) ∧
    (∀ (r₁ r₂ : Int) (c₁ c₂ : Nat), 1 ≤ r₁ → r₁ ≤ r₂ → r₂ ≤ 7462 →
      get_rank_class r₁ = Except.ok c₁ → get_rank_class r₂ = Except.ok c₂ → c₁ ≤ c₂) := by
  constructor
  · intro r₁ r₂ h
    rw [h]
  · intro r₁ r₂ c₁ c₂ h1 h12 h2 e1 e2
    rw [get_rank_class_eq, if_pos (show r₁ ≤ 7462 by omega)] at e1
    rw [get_rank_class_eq, if_pos h2] at e2
    injection e1 with g1
    injection e2 with g2
    rw [← g1, ← g2]
    have s1 := rank_class_idx_spec r₁ h1
    have s2 := rank_class_idx_spec r₂ (by omega)
    omega

/-- Witness for C8 at ranks 1 and 7462. -/
theorem get_rank_class_monotone_witness :
    get_rank_class 1 = Except.ok 0 ∧ get_rank_class 7462 = Except.ok 9 ∧ (0 : Nat) ≤ 9 := by
  have e1 : get_rank_class 1 = Except.ok 0 := by
    rw [get_rank_class_eq]
    norm_num [rank_class_idx]
  have e2 : get_rank_class 7462 = Except.ok 9 := by
    rw [get_rank_class_eq]
    norm_num [rank_class_idx]
  exact ⟨e1, e2,
    get_rank_class_monotone.2 1 7462 0 9 (by norm_num) (by norm_num) (by norm_num) e1 e2⟩

theorem rank_class_idx_le9 (hr : Int) : rank_class_idx hr ≤ 9 := by
  unfold rank_class_idx
  split_ifs <;> omega

theorem six_le_max (t : LookupTable) (cards : List Nat) : _six t cards ≤ MAX_HIGH_CARD := by
  simp only [_six]
  rw [foldl_min_eq_foldr]
  exact foldr_min_le_init _ _

theorem seven_le_max (t : LookupTable) (cards : List Nat) : _seven t cards ≤ MAX_HIGH_CARD := by
  rw [seven_eq_six]
  exact six_le_max t cards

theorem evaluate_len5 (t : LookupTable) (hand board : List Nat)
    (h : (hand ++ board).length = 5) :
    evaluate t hand board = Except.ok (_five t (hand ++ board)) := by
  simp only [evaluate]
  rw [if_pos h]

theorem evaluate_len6 (t : LookupTable) (hand board : List Nat)
    (h : (hand ++ board).length = 6) :
    evaluate t hand board = Except.ok (_six t (hand ++ board)) := by
  simp only [evaluate]
  rw [if_neg (show ¬((hand ++ board).length = 5) by omega), if_pos h]

theorem evaluate_len7 (t : LookupTable) (hand board : List Nat)
    (h : (hand ++ board).length = 7) :
    evaluate t hand board = Except.ok (_seven t (hand ++ board)) := by
  simp only [evaluate]
  rw [if_neg (show ¬((hand ++ board).length = 5) by omega),
    if_neg (show ¬((hand ++ board).length = 6) by omega), if_pos h]

/-- When the evaluation succeeds with a rank within [0, 7462], one
`hand_summary` street step succeeds and performs the tie-append /
strict-improvement-reset update on the accumulator. -/
theorem hand_summary_step_ok (t : LookupTable) (bsf : List Nat) (acc ph : Nat × List Nat)
    (r : Nat) (heval : evaluate t ph.2 bsf = Except.ok r) (hr : r ≤ MAX_HIGH_CARD) :
    hand_summary_step t bsf acc ph
      = Except.ok (if r = acc.1 then (r, acc.2 ++ [ph.1])
          else if r < acc.1 then (r, [ph.1]) else acc) := by
  have hr7462 : (r : Int) ≤ 7462 := by
    have h2 : r ≤ 7462 := hr
    exact_mod_cast h2
  have hgrc : get_rank_class (r : Int) = Except.ok (rank_class_idx (r : Int)) := by
    rw [get_rank_class_eq, if_pos hr7462]
  obtain ⟨s, hs⟩ := class_to_string_ok (rank_class_idx (r : Int)) (rank_class_idx_le9 _)
  unfold hand_summary_step
  rw [heval]
  simp only [Bind.bind, Except.bind]
  rw [hgrc]
  simp only [Bind.bind, Except.bind]
  rw [hs]
  simp only [Bind.bind, Except.bind]
  split_ifs <;> rfl

theorem foldlM_ok_of_steps {σ α : Type} (step : σ → α → Except EvalError σ) (g : σ → α → σ) :
    ∀ l : List α, (∀ acc x, x ∈ l → step acc x = Except.ok (g acc x)) →
      ∀ init : σ, List.foldlM step init l = Except.ok (List.foldl g init l) := by
  intro l
  induction l with
  | nil =>
    intro _ init
    rfl
  | cons x xs ih =>
    intro hstep init
    rw [List.foldlM_cons, hstep init x (List.mem_cons_self x xs)]
    simp only [List.foldl_cons]
    have hxs := fun acc y hy => hstep acc y (List.mem_cons_of_mem _ hy)
    have hmain := ih hxs (g init x)
    simp only [Bind.bind, Except.bind]
    exact hmain

/-- C6: for a board of exactly 5 cards and a non-empty mapping of player ids
to (2-card) hands, with the tables satisfying their [1, 7462] invariant,
`hand_summary` returns exactly the leader set of the last street processed
(the river, i.e. the full 5-card board), where within each street the leader
set resets to a single player on strict rank improvement and the player is
appended on a tie; the flop and turn leader sets are computed but not
returned. -/
theorem hand_summary_eq_river_leaders (t : LookupTable) (board : List Nat)
    (hands : List (Nat × List Nat)) (hb : t.Bounded) (hboard : board.length = 5)
    (_hne : hands ≠ []) (hhl : ∀ ph ∈ hands, (ph.2 : List Nat).length = 2) :
    hand_summary t board hands = Except.ok (river_leaders t board hands) := by
  have htake5 : board.take 5 = board := List.take_of_length_le (by omega)
  have hlen3 : (board.take 3).length = 3 := by
    rw [List.length_take, hboard]
    omega
  have hlen4 : (board.take 4).length = 4 := by
    rw [List.length_take, hboard]
    omega
  have hflop : ∃ v, hand_summary_street t (board.take 3) hands = Except.ok v := by
    unfold hand_summary_street
    refine ⟨_, foldlM_ok_of_steps _
      (fun acc ph =>
        if _five t (ph.2 ++ board.take 3) = acc.1 then
          (_five t (ph.2 ++ board.take 3), acc.2 ++ [ph.1])
        else if _five t (ph.2 ++ board.take 3) < acc.1 then
          (_five t (ph.2 ++ board.take 3), [ph.1])
        else acc)
      hands ?_ (7463, [])⟩
    intro acc ph hph
    have hp2 := hhl ph hph
    have hl : (ph.2 ++ board.take 3).length = 5 := by
      rw [List.length_append, hp2, hlen3]
    exact hand_summary_step_ok t (board.take 3) acc ph _
      (evaluate_len5 t ph.2 (board.take 3) hl) (five_le_max t hb _ hl)
  have hturn : ∃ v, hand_summary_street t (board.take 4) hands = Except.ok v := by
    unfold hand_summary_street
    refine ⟨_, foldlM_ok_of_steps _
      (fun acc ph =>
        if _six t (ph.2 ++ board.take 4) = acc.1 then
          (_six t (ph.2 ++ board.take 4), acc.2 ++ [ph.1])
        else if _six t (ph.2 ++ board.take 4) < acc.1 then
          (_six t (ph.2 ++ board.take 4), [ph.1])
        else acc)
      hands ?_ (7463, [])⟩
    intro acc ph hph
    have hp2 := hhl ph hph
    have hl : (ph.2 ++ board.take 4).length = 6 := by
      rw [List.length_append, hp2, hlen4]
    exact hand_summary_step_ok t (board.take 4) acc ph _
      (evaluate_len6 t ph.2 (board.take 4) hl) (six_le_max t _)
  have hriver : hand_summary_street t board hands
      = Except.ok (hands.foldl (fun acc ph =>
          if _seven t (ph.2 ++ board) = acc.1 then (_seven t (ph.2 ++ board), acc.2 ++ [ph.1])
          else if _seven t (ph.2 ++ board) < acc.1 then (_seven t (ph.2 ++ board), [ph.1])
          else acc) (7463, [])) := by
    unfold hand_summary_street
    apply foldlM_ok_of_steps
    intro acc ph hph
    have hp2 := hhl ph hph
    have hl : (ph.2 ++ board).length = 7 := by
      rw [List.length_append, hp2, hboard]
    exact hand_summary_step_ok t board acc ph _
      (evaluate_len7 t ph.2 board hl) (seven_le_max t _)
  obtain ⟨vf, hvf⟩ := hflop
  obtain ⟨vt, hvt⟩ := hturn
  unfold hand_summary
  rw [if_pos hboard, htake5, hvf]
  simp only [Bind.bind, Except.bind]
  rw [hvt]
  simp only [Bind.bind, Except.bind]
  rw [hriver]
  simp only [Bind.bind, Except.bind]
  rfl

/-- Witness for C6 at a concrete board and single-player hand mapping. -/
theorem hand_summary_eq_river_leaders_witness :
    hand_summary onesTable [1, 2, 3, 4, 5] [(0, [6, 7])]
      = Except.ok (river_leaders onesTable [1, 2, 3, 4, 5] [(0, [6, 7])]) :=
  hand_summary_eq_river_leaders onesTable [1, 2, 3, 4, 5] [(0, [6, 7])] onesTable_bounded
    rfl (List.cons_ne_nil _ _) (by decide)

theorem foldlM_error_mem {σ α : Type} (step : σ → α → Except EvalError σ) :
    ∀ (l : List α) (init : σ) (e : EvalError),
      List.foldlM step init l = Except.error e →
      ∃ acc x, x ∈ l ∧ step acc x = Except.error e := by
  intro l
  induction l with
  | nil =>
    intro init e h
    exact Except.noConfusion h
  | cons x xs ih =>
    intro init e h
    rw [List.foldlM_cons] at h
    cases hs : step init x with
    | error e1 =>
      rw [hs] at h
      simp only [Bind.bind, Except.bind] at h
      injection h with h2
      exact ⟨init, x, List.mem_cons_self x xs, by rw [hs, h2]⟩
    | ok s =>
      rw [hs] at h
      simp only [Bind.bind, Except.bind] at h
      obtain ⟨acc, y, hy, hstep⟩ := ih s e h
      exact ⟨acc, y, List.mem_cons_of_mem _ hy, hstep⟩

/-- A `hand_summary` street step can fail only inside `evaluate`,
`get_rank_class` or `class_to_string`; none of those produce the board
validation error. -/
theorem hand_summary_step_error_ne_ibl (t : LookupTable) (bsf : List Nat)
    (acc ph : Nat × List Nat) (e : EvalError)
    (h : hand_summary_step t bsf acc ph = Except.error e) :
    e ≠ EvalError.InvalidBoardLength := by
  unfold hand_summary_step at h
  cases heval : evaluate t ph.2 bsf with
  | error e1 =>
    rw [heval] at h
    simp only [Bind.bind, Except.bind] at h
    injection h with h2
    have he : e = EvalError.UnsupportedHandSize := by
      rw [← h2]
      exact evaluate_error_eq t ph.2 bsf e1 heval
    rw [he]
    decide
  | ok rank =>
    rw [heval] at h
    simp only [Bind.bind, Except.bind] at h
    cases hgrc : get_rank_class (rank : Int) with
    | error e2 =>
      rw [hgrc] at h
      simp only [Bind.bind, Except.bind] at h
      injection h with h2
      have he : e = EvalError.InvalidRank := by
        rw [← h2]
        exact get_rank_class_error_eq (rank : Int) e2 hgrc
      rw [he]
      decide
    | ok rank_class =>
      rw [hgrc] at h
      simp only [Bind.bind, Except.bind] at h
      cases hcts : class_to_string rank_class with
      | error e3 =>
        rw [hcts] at h
        simp only [Bind.bind, Except.bind] at h
        injection h with h2
        have he : e = EvalError.InvalidRankClass := by
          rw [← h2]
          exact class_to_string_error_eq rank_class e3 hcts
        rw [he]
        decide
      | ok s =>
        rw [hcts] at h
        simp only [Bind.bind, Except.bind] at h
        split_ifs at h <;> exact Except.noConfusion h

/-- C9: `hand_summary` fails with the explicit `InvalidBoardLength` error
whenever the board has not exactly 5 cards — regardless of the hands, so
before any hand is evaluated — and with a 5-card board this validation
passes: `InvalidBoardLength` is never the result. -/
theorem hand_summary_board_validation (t : LookupTable) (board : List Nat)
    (hands : List (Nat × List Nat)) :
    (board.length ≠ 5 →
      hand_summary t board hands = Except.error EvalError.InvalidBoardLength) ∧
    (board.length = 5 →
      hand_summary t board hands ≠ Except.error EvalError.InvalidBoardLength) := by
  constructor
  · intro h
    unfold hand_summary
    rw [if_neg h]
  · intro h5 hcontra
    unfold hand_summary at hcontra
    rw [if_pos h5] at hcontra
    cases hf : hand_summary_street t (board.take 3) hands with
    | error e =>
      rw [hf] at hcontra
      simp only [Bind.bind, Except.bind] at hcontra
      injection hcontra with h2
      unfold hand_summary_street at hf
      obtain ⟨acc, x, _, hstep⟩ := foldlM_error_mem _ hands (7463, []) e hf
      exact hand_summary_step_error_ne_ibl t _ acc x e hstep h2
    | ok vf =>
      rw [hf] at hcontra
      simp only [Bind.bind, Except.bind] at hcontra
      cases ht : hand_summary_street t (board.take 4) hands with
      | error e =>
        rw [ht] at hcontra
        simp only [Bind.bind, Except.bind] at hcontra
        injection hcontra with h2
        unfold hand_summary_street at ht
        obtain ⟨acc, x, _, hstep⟩ := foldlM_error_mem _ hands (7463, []) e ht
        exact hand_summary_step_error_ne_ibl t _ acc x e hstep h2
      | ok vt =>
        rw [ht] at hcontra
        simp only [Bind.bind, Except.bind] at hcontra
        cases hr : hand_summary_street t (board.take 5) hands with
        | error e =>
          rw [hr] at hcontra
          simp only [Bind.bind, Except.bind] at hcontra
          injection hcontra with h2
          unfold hand_summary_street at hr
          obtain ⟨acc, x, _, hstep⟩ := foldlM_error_mem _ hands (7463, []) e hr
          exact hand_summary_step_error_ne_ibl t _ acc x e hstep h2
        | ok vr =>
          rw [hr] at hcontra
          simp only [Bind.bind, Except.bind] at hcontra
          exact Except.noConfusion hcontra

/-- Witness for C9: a 2-card board fails with `InvalidBoardLength`, a 5-card
board does not produce that error. -/
theorem hand_summary_board_validation_witness :
    hand_summary onesTable [1, 2] [] = Except.error EvalError.InvalidBoardLength ∧
    hand_summary onesTable [1, 2, 3, 4, 5] [] ≠ Except.error EvalError.InvalidBoardLength :=
  ⟨(hand_summary_board_validation onesTable [1, 2] []).1 (by decide),
   (hand_summary_board_validation onesTable [1, 2, 3, 4, 5] []).2 rfl⟩
